import Mathlib

/-!
Verification of the transient-entity lifecycle and animation scheduler of
`2din3dbevy` (src/src/main.rs, default per-entity variant; src/examples/test2.rs,
shared-material variant), over a shallow embedding.

Time quantities are modelled as exact rationals (seconds); the engine keeps
them as integer nanoseconds, and the source's float literals (0.05, 3.0, 1/5
grid fractions) are represented by the rationals they denote.
-/

namespace Bevy2din3d

/-- Sprite grid columns (`SPRITE_COLS` in main.rs / test2.rs). -/
def SPRITE_COLS : Nat := 5

/-- Sprite grid rows (`SPRITE_ROWS`). -/
def SPRITE_ROWS : Nat := 5

/-- `TOTAL_FRAMES = SPRITE_COLS * SPRITE_ROWS`. -/
def TOTAL_FRAMES : Nat := SPRITE_COLS * SPRITE_ROWS

/-- Timer mode, `Once` or `Repeating` (engine `TimerMode`). -/
inductive TimerMode where
  | Once : TimerMode
  | Repeating : TimerMode
deriving DecidableEq, Repr

/-- Modelled from the spec: the engine `Timer` used by `WaterSkill` is library
code not present under src/. Spec section 4.1: `duration`, `elapsed`, `mode`,
the `finished` flag, and the per-tick completion count backing
`just_finished`. -/
structure Timer where
  duration : ℚ
  elapsed : ℚ
  mode : TimerMode
  finished : Bool
  timesFinishedThisTick : Nat
deriving DecidableEq, Repr

/-- `Timer::from_seconds`: fresh timer, nothing elapsed, not finished. -/
def Timer.fromSeconds (d : ℚ) (m : TimerMode) : Timer :=
  { duration := d, elapsed := 0, mode := m, finished := false,
    timesFinishedThisTick := 0 }

/-- Modelled from the spec: `Timer::tick(dt)`. A finished `Once` timer is
inert (stays clamped at `duration`, `finished` stays true, no new
completions). Otherwise `dt` accrues; on reaching `duration` a `Once` timer
clamps and records one completion, while a `Repeating` timer records every
completion contained in the accrued time (`⌊elapsed/duration⌋`, so one call
with `dt` spanning several periods accounts for all of them) and keeps the
overshoot remainder. -/
def Timer.tick (t : Timer) (dt : ℚ) : Timer :=
  if t.mode = TimerMode.Once ∧ t.finished then
    { t with timesFinishedThisTick := 0 }
  else
    let e := t.elapsed + dt
    if t.duration ≤ e then
      match t.mode with
      | TimerMode.Once =>
          { t with elapsed := t.duration, finished := true,
                   timesFinishedThisTick := 1 }
      | TimerMode.Repeating =>
          { t with elapsed := e - t.duration * (⌊e / t.duration⌋ : ℤ),
                   finished := true,
                   timesFinishedThisTick := (⌊e / t.duration⌋).toNat }
    else
      { t with elapsed := e, finished := false, timesFinishedThisTick := 0 }

/-- `Timer::just_finished()`: at least one completion on the last tick. -/
def Timer.justFinished (t : Timer) : Bool :=
  t.timesFinishedThisTick ≠ 0

/-- The frame-advance step inside `animate_skills` (main.rs lines 166-169):
`index = (index + 1) % TOTAL_FRAMES`, then the reserved cell 0 is skipped to
1. -/
def advanceFrame (i : Nat) : Nat :=
  if (i + 1) % TOTAL_FRAMES = 0 then 1 else (i + 1) % TOTAL_FRAMES

/-- The `WaterSkill` component: animation cadence timer and lifetime timer. -/
structure WaterSkill where
  animation_timer : Timer
  lifetime : Timer
deriving DecidableEq, Repr

/-- The `WaterSkill` value built in `spawn_skill` (main.rs lines 152-155):
`Timer::from_seconds(0.05, Repeating)` and `Timer::from_seconds(3.0, Once)`. -/
def freshWaterSkill : WaterSkill :=
  { animation_timer := Timer.fromSeconds (1/20) TimerMode.Repeating,
    lifetime := Timer.fromSeconds 3 TimerMode.Once }

/-- 3D point, components as exact rationals. -/
structure Vec3 where
  x : ℚ
  y : ℚ
  z : ℚ
deriving DecidableEq, Repr

/-- Componentwise vector addition. -/
def Vec3.add (a b : Vec3) : Vec3 :=
  { x := a.x + b.x, y := a.y + b.y, z := a.z + b.z }

/-- `Vec3::new(1.0, 1.0, 0.0)`, the fixed spawn offset in `spawn_skill`. -/
def spawnOffset : Vec3 := { x := 1, y := 1, z := 0 }

/-- One world entity, restricted to the components the lifecycle core reads
or writes: translation, the optional `WaterSkill` component, and the optional
`TextureAtlas` frame state (`atlas.index` when the component is present). -/
structure Entity where
  translation : Vec3
  skill : Option WaterSkill
  atlas : Option Nat
deriving DecidableEq, Repr

/-- The bundle spawned by `spawn_skill` (main.rs lines 143-156): a `PbrBundle`
at the player position plus the (1,1,0) offset together with a fresh
`WaterSkill`. No `TextureAtlas` component is inserted. -/
def spawnedSkillEntity (playerPos : Vec3) : Entity :=
  { translation := playerPos.add spawnOffset,
    skill := some freshWaterSkill,
    atlas := none }

/-- The `spawn_skill` system (main.rs lines 122-159): on the tick where Space
was just pressed, if the single `Player` entity exists, spawn one skill
entity at its translation plus the offset; otherwise do nothing. -/
def spawnSkill (justPressedSpace : Bool) (playerPos : Option Vec3)
    (world : List Entity) : List Entity :=
  if justPressedSpace then
    match playerPos with
    | some p => world ++ [spawnedSkillEntity p]
    | none => world
  else world

/-- Loop body of `animate_skills` (main.rs lines 163-170) for one matched
`(&mut WaterSkill, &mut TextureAtlas)` pair: tick the animation timer by the
frame delta; if it just finished, advance the atlas index once. -/
def animateSkillPair (dt : ℚ) (s : WaterSkill) (i : Nat) : WaterSkill × Nat :=
  let t := s.animation_timer.tick dt
  let s' := { s with animation_timer := t }
  if t.justFinished then (s', advanceFrame i) else (s', i)

/-- `animate_skills` seen from one entity: the query
`Query<(&mut WaterSkill, &mut TextureAtlas)>` matches only entities carrying
both components; all others are untouched. -/
def animateEntity (dt : ℚ) (e : Entity) : Entity :=
  match e.skill, e.atlas with
  | some s, some i =>
      let r := animateSkillPair dt s i
      { e with skill := some r.1, atlas := some r.2 }
  | _, _ => e

/-- The `animate_skills` system over the whole world. -/
def animateSkills (dt : ℚ) (world : List Entity) : List Entity :=
  world.map (animateEntity dt)

/-- Lifetime tick performed on each skill by `despawn_skills`. -/
def tickLifetime (dt : ℚ) (s : WaterSkill) : WaterSkill :=
  { s with lifetime := s.lifetime.tick dt }

/-- The `despawn_skills` system (main.rs lines 174-186) over entity-id/skill
pairs: every queried entry has its lifetime ticked once; entries whose
lifetime finished get a deferred `despawn` command, and the command buffer is
applied after the whole scan. -/
def despawnSkills (dt : ℚ) (world : List (Nat × WaterSkill)) :
    List (Nat × WaterSkill) :=
  let ticked := world.map (fun p => (p.1, tickLifetime dt p.2))
  let cmds := (ticked.filter (fun p => p.2.lifetime.finished)).map Prod.fst
  ticked.filter (fun p => !(cmds.contains p.1))

/-- Running `despawn_skills` over a sequence of tick deltas. -/
def despawnRun (dts : List ℚ) (world : List (Nat × WaterSkill)) :
    List (Nat × WaterSkill) :=
  dts.foldl (fun w d => despawnSkills d w) world

/-- Names of the systems registered to the `Update` schedule in `main`. -/
inductive SystemId where
  | spawnSkill : SystemId
  | animateSkills : SystemId
  | despawnSkills : SystemId
  | cameraControls : SystemId
  | playerMovement : SystemId
  | debugSkillInfo : SystemId
deriving DecidableEq, Repr

/-- The system tuple passed to `add_systems(Update, ...)` in `main`
(main.rs lines 34-44). -/
def updateSystems : List SystemId :=
  [SystemId.spawnSkill, SystemId.animateSkills, SystemId.despawnSkills,
   SystemId.cameraControls, SystemId.playerMovement, SystemId.debugSkillInfo]

/-- Ordering constraints declared on the `Update` systems: `main` uses a
plain tuple with no `.chain()` and no `.before`/`.after`, so the set is
empty. -/
def updateConstraints : List (SystemId × SystemId) := []

/-- A per-tick execution of the `Update` schedule: the scheduler runs each
registered system exactly once, in any order consistent with every declared
ordering constraint. -/
def validExecution (e : List SystemId) : Prop :=
  List.Perm e updateSystems ∧
  ∀ c ∈ updateConstraints, e.indexOf c.1 < e.indexOf c.2

/-- Shared-material frame state of test2.rs: the pair
`(material.frame.x, material.frame.y)`. Initial value from `setup`
(test2.rs lines 141-147): `Vec4::new(0.0, 0.0, 1/COLS, 1/ROWS)`, so
`(x, y) = (0, 0)`. -/
def initialSharedFrame : ℚ × ℚ := (0, 0)

/-- Frame-index recovery in the shared-material `animate_skills`
(test2.rs line 192): `(material.frame.x * SPRITE_COLS as f32) as usize`,
a truncating cast of a nonnegative value. -/
def sharedFrameIndex (f : ℚ × ℚ) : Nat :=
  (⌊f.1 * (SPRITE_COLS : ℚ)⌋).toNat

/-- One firing of the shared-material `animate_skills` (test2.rs lines
192-203): recover the frame index from the stored column fraction, advance
modulo `TOTAL_FRAMES`, skip 0, and store the new column/row fractions. -/
def sharedAnimStep (f : ℚ × ℚ) : ℚ × ℚ :=
  let i := sharedFrameIndex f
  let next := (i + 1) % TOTAL_FRAMES
  if next = 0 then (1 / (SPRITE_COLS : ℚ), 0)
  else (((next % SPRITE_COLS : Nat) : ℚ) / (SPRITE_COLS : ℚ),
        ((next / SPRITE_COLS : Nat) : ℚ) / (SPRITE_ROWS : ℚ))

/-- The sprite-grid cell index encoded by a shared frame state:
column `x*COLS` plus `COLS` times row `y*ROWS`. -/
def sharedEncodedIndex (f : ℚ × ℚ) : Nat :=
  sharedFrameIndex f + SPRITE_COLS * (⌊f.2 * (SPRITE_ROWS : ℚ)⌋).toNat

/-- Cumulative number of timer completions registered across a sequence of
`tick` calls (the sum of `times_finished_this_tick`, which is what
`just_finished` crossings count when multi-crossing ticks are accounted). -/
def crossings : Timer → List ℚ → Nat
  | _, [] => 0
  | t, d :: ds => (t.tick d).timesFinishedThisTick + crossings (t.tick d) ds

/-- An `Update`-schedule execution that runs the Lifetime Reaper before the
Animation Stepper. -/
def outOfOrderExecution : List SystemId :=
  [SystemId.spawnSkill, SystemId.despawnSkills, SystemId.animateSkills,
   SystemId.cameraControls, SystemId.playerMovement, SystemId.debugSkillInfo]

/-- The five shared-material frame states the test2.rs stepper cycles
through, indexed by step count modulo 5. -/
def sharedCycleState (n : Nat) : ℚ × ℚ :=
  match n % 5 with
  | 0 => (1/5, 0)
  | 1 => (2/5, 0)
  | 2 => (3/5, 0)
  | 3 => (4/5, 0)
  | _ => (0, 1/5)

/-!  Theorems  -/

theorem animateEntity_spawned (dt : ℚ) (p : Vec3) :
    animateEntity dt (spawnedSkillEntity p) = spawnedSkillEntity p := by
  simp [animateEntity, spawnedSkillEntity]

/-- C1: in the default per-entity variant, `spawn_skill` inserts no
`TextureAtlas` component, while `animate_skills` queries
`(&mut WaterSkill, &mut TextureAtlas)`. Hence a spawned skill entity is never
matched: across any sequence of ticks, `animate_skills` leaves its animation
timer and frame state exactly as spawned — the animation never advances. -/
theorem c1_spawned_skill_never_animates (p : Vec3) (dts : List ℚ) :
    dts.foldl (fun e dt => animateEntity dt e) (spawnedSkillEntity p)
      = spawnedSkillEntity p := by
  induction dts with
  | nil => rfl
  | cons d ds ih => rw [List.foldl_cons, animateEntity_spawned, ih]

theorem advanceFrame_bounds (i : Nat) :
    1 ≤ advanceFrame i ∧ advanceFrame i ≤ TOTAL_FRAMES - 1 := by
  have ht : TOTAL_FRAMES = 25 := rfl
  have h : (i + 1) % TOTAL_FRAMES < TOTAL_FRAMES := Nat.mod_lt _ (by omega)
  unfold advanceFrame
  split_ifs with hj <;> omega

/-- C4: from any frame index, one or more applications of the frame-advance
step keep the index in `[1, TOTAL_FRAMES - 1]` (index 0 can occur only as the
initial, never-advanced state), and advancing from `TOTAL_FRAMES - 1` lands on
1, never on the reserved index 0. -/
theorem c4_frame_index_invariant :
    (∀ (i n : Nat), 1 ≤ n →
        1 ≤ advanceFrame^[n] i ∧ advanceFrame^[n] i ≤ TOTAL_FRAMES - 1)
    ∧ advanceFrame (TOTAL_FRAMES - 1) = 1 := by
  refine ⟨?_, by decide⟩
  intro i n hn
  obtain ⟨m, rfl⟩ : ∃ m, n = m + 1 := ⟨n - 1, by omega⟩
  rw [Function.iterate_succ_apply']
  exact advanceFrame_bounds _

/-- Witness for C4 at `i = 0`, `n = 24`. -/
theorem c4_frame_index_invariant_witness :
    1 ≤ 24 ∧ (1 ≤ advanceFrame^[24] 0 ∧ advanceFrame^[24] 0 ≤ TOTAL_FRAMES - 1) :=
  ⟨by decide, c4_frame_index_invariant.1 0 24 (by decide)⟩

/-- C8: spawn trigger pressed while no avatar (`Player`) entity exists:
`spawn_skill` is a total no-op — the world is returned unchanged, no
instance is created, and no error is raised (the function is total). -/
theorem c8_spawn_without_avatar_noop (world : List Entity) :
    spawnSkill true none world = world := by
  simp [spawnSkill]

/-- C3 counterexample: the entity spawned with the avatar at the origin
carries no `TextureAtlas` component at all (`atlas = none`), so its
`frame_index` is not 1 — the claim's `frame_index = 1` is false on the
default variant. -/
theorem c3_counterexample :
    (spawnedSkillEntity { x := 0, y := 0, z := 0 }).atlas ≠ some 1 := by
  simp [spawnedSkillEntity]

/-- C3 amended: spawning with the avatar at `(0,0,0)` and the trigger pressed
creates exactly one new instance, at position `(1,1,0)`, with a fresh
animation timer of duration 0.05 s in `Repeating` mode and a fresh lifetime
timer of duration 3.0 s in `Once` mode — but with no frame-state component
(no `frame_index` is set, in particular not to 1). -/
theorem c3_spawn_scenario :
    spawnSkill true (some { x := 0, y := 0, z := 0 }) []
      = [{ translation := { x := 1, y := 1, z := 0 },
           skill := some
             { animation_timer :=
                 { duration := 1/20, elapsed := 0, mode := TimerMode.Repeating,
                   finished := false, timesFinishedThisTick := 0 },
               lifetime :=
                 { duration := 3, elapsed := 0, mode := TimerMode.Once,
                   finished := false, timesFinishedThisTick := 0 } },
           atlas := none }] := by
  norm_num [spawnSkill, spawnedSkillEntity, freshWaterSkill, Timer.fromSeconds,
    spawnOffset, Vec3.add]

/-- C9 counterexample: `main` registers the systems as a plain tuple with no
`.chain()` and no `.before`/`.after`, so the schedule carries no ordering
constraints; an execution that runs `despawn_skills` before `animate_skills`
is valid, refuting "always in the fixed order spawn, then animate, then
reap". -/
theorem c9_counterexample :
    validExecution outOfOrderExecution ∧
    outOfOrderExecution.indexOf SystemId.despawnSkills
      < outOfOrderExecution.indexOf SystemId.animateSkills := by
  refine ⟨⟨?_, ?_⟩, by decide⟩
  · decide
  · intro c hc
    simp [updateConstraints] at hc

/-- C9 amended: on every external tick each of `spawn_skill`,
`animate_skills` and `despawn_skills` is invoked exactly once, but the
schedule imposes no relative order on them — any permutation of the
registered systems is a valid execution. -/
theorem c9_each_system_once (e : List SystemId) (h : validExecution e) :
    e.count SystemId.spawnSkill = 1 ∧ e.count SystemId.animateSkills = 1 ∧
    e.count SystemId.despawnSkills = 1 := by
  obtain ⟨hp, -⟩ := h
  refine ⟨?_, ?_, ?_⟩ <;> rw [hp.count_eq] <;> decide

/-- Witness for C9 at the execution that happens to match the registration
order. -/
theorem c9_each_system_once_witness :
    validExecution updateSystems ∧
    (updateSystems.count SystemId.spawnSkill = 1 ∧
     updateSystems.count SystemId.animateSkills = 1 ∧
     updateSystems.count SystemId.despawnSkills = 1) :=
  ⟨⟨List.Perm.refl _, by intro c hc; simp [updateConstraints] at hc⟩,
   c9_each_system_once updateSystems
     ⟨List.Perm.refl _, by intro c hc; simp [updateConstraints] at hc⟩⟩

theorem animTimer_tick_three_crossings :
    freshWaterSkill.animation_timer.tick (3/20)
      = { duration := 1/20, elapsed := 0, mode := TimerMode.Repeating,
          finished := true, timesFinishedThisTick := 3 } := by
  simp only [freshWaterSkill, Timer.fromSeconds, Timer.tick]
  norm_num
  decide

/-- C2 counterexample: starting a fresh skill (cadence 0.05 s) at frame 1 and
ticking once with `dt = 0.15`, the repeating timer completes `k = 3` times
within that single dt, yet `animate_skills` advances the frame to 2 — one
step — while three per-firing steps from 1 would reach 4. The claim's
"exactly k steps during that tick" is false on the code. -/
theorem c2_counterexample :
    (freshWaterSkill.animation_timer.tick (3/20)).timesFinishedThisTick = 3 ∧
    (animateSkillPair (3/20) freshWaterSkill 1).2 = 2 ∧
    advanceFrame^[3] 1 = 4 ∧
    (animateSkillPair (3/20) freshWaterSkill 1).2 ≠ advanceFrame^[3] 1 := by
  have h := animTimer_tick_three_crossings
  refine ⟨by rw [h], ?_, by decide, ?_⟩
  · simp [animateSkillPair, h, Timer.justFinished, advanceFrame]
    decide
  · simp [animateSkillPair, h, Timer.justFinished, advanceFrame]
    decide

/-- C2 amended: on any tick where the repeating animation timer registers
`k ≥ 1` completions within the single delta `dt`, `animate_skills` advances
the frame index by exactly one step — never by `k` — because it only tests
the boolean `just_finished()`. -/
theorem c2_one_step_per_tick (s : WaterSkill) (i : Nat) (dt : ℚ) (k : Nat)
    (hk : (s.animation_timer.tick dt).timesFinishedThisTick = k) (h1 : 1 ≤ k) :
    (animateSkillPair dt s i).2 = advanceFrame i := by
  have hjf : (s.animation_timer.tick dt).justFinished = true := by
    simp [Timer.justFinished, hk]
    omega
  simp [animateSkillPair, hjf]

/-- Witness for C2 at the fresh skill, frame 1, `dt = 0.15`, `k = 3`. -/
theorem c2_one_step_per_tick_witness :
    (freshWaterSkill.animation_timer.tick (3/20)).timesFinishedThisTick = 3 ∧
    1 ≤ 3 ∧
    (animateSkillPair (3/20) freshWaterSkill 1).2 = advanceFrame 1 :=
  ⟨by rw [animTimer_tick_three_crossings], by decide,
   c2_one_step_per_tick freshWaterSkill 1 (3/20) 3
     (by rw [animTimer_tick_three_crossings]) (by decide)⟩

/-- C6: for a `Once`-mode timer and any `dt1, dt2 ≥ 0`, ticking by `dt1` and
then by `dt2` leaves exactly the same `elapsed` and `finished` state as one
tick by `dt1 + dt2`. -/
theorem c6_once_tick_additive (t : Timer) (dt1 dt2 : ℚ)
    (hm : t.mode = TimerMode.Once) (h1 : 0 ≤ dt1) (h2 : 0 ≤ dt2) :
    ((t.tick dt1).tick dt2).elapsed = (t.tick (dt1 + dt2)).elapsed ∧
    ((t.tick dt1).tick dt2).finished = (t.tick (dt1 + dt2)).finished := by
  obtain ⟨d, e, m, f, tf⟩ := t
  simp only at hm
  subst hm
  cases f with
  | true => simp [Timer.tick]
  | false =>
      simp only [Timer.tick]
      split_ifs with hA hB hC hD hE hF hG <;> simp_all
      all_goals try ring_nf
      all_goals linarith

/-- Witness for C6: a 3-second `Once` timer ticked by 2 then 2. -/
theorem c6_once_tick_additive_witness :
    (Timer.fromSeconds 3 TimerMode.Once).mode = TimerMode.Once ∧
    (0:ℚ) ≤ 2 ∧
    ((((Timer.fromSeconds 3 TimerMode.Once).tick 2).tick 2).elapsed
        = ((Timer.fromSeconds 3 TimerMode.Once).tick (2 + 2)).elapsed ∧
     (((Timer.fromSeconds 3 TimerMode.Once).tick 2).tick 2).finished
        = ((Timer.fromSeconds 3 TimerMode.Once).tick (2 + 2)).finished) :=
  ⟨rfl, by norm_num,
   c6_once_tick_additive (Timer.fromSeconds 3 TimerMode.Once) 2 2 rfl
     (by norm_num) (by norm_num)⟩

theorem despawnSkills_eq_filter (dt : ℚ) (world : List (Nat × WaterSkill))
    (hnd : (world.map Prod.fst).Nodup) :
    despawnSkills dt world
      = (world.map (fun p => (p.1, tickLifetime dt p.2))).filter
          (fun p => !p.2.lifetime.finished) := by
  unfold despawnSkills
  set ticked := world.map (fun p => (p.1, tickLifetime dt p.2)) with hticked
  set cmds := (ticked.filter (fun p => p.2.lifetime.finished)).map Prod.fst
    with hcmds
  have hnd' : (ticked.map Prod.fst).Nodup := by
    rw [hticked, List.map_map]
    exact hnd
  apply List.filter_congr
  intro p hp
  show (!cmds.contains p.1) = (!p.2.lifetime.finished)
  by_cases hf : p.2.lifetime.finished
  · have hmem : p.1 ∈ cmds :=
      List.mem_map.2 ⟨p, List.mem_filter.2 ⟨hp, hf⟩, rfl⟩
    have hct : cmds.contains p.1 = true := List.elem_iff.2 hmem
    rw [hct, hf]
  · have hnmem : p.1 ∉ cmds := by
      intro hmem
      obtain ⟨q, hq, hfst⟩ := List.mem_map.1 hmem
      obtain ⟨hqt, hqf⟩ := List.mem_filter.1 hq
      have hpq : q = p := List.inj_on_of_nodup_map hnd' hqt hp hfst
      rw [hpq] at hqf
      exact hf hqf
    have hcf : cmds.contains p.1 = false := by
      cases hcc : cmds.contains p.1
      · rfl
      · exact absurd (List.elem_iff.1 (show cmds.elem p.1 = true from hcc)) hnmem
    rw [hcf]
    cases hff : p.2.lifetime.finished
    · rfl
    · exact absurd hff hf

theorem despawnRun_nil (dts : List ℚ) : despawnRun dts [] = [] := by
  induction dts with
  | nil => rfl
  | cons d ds ih =>
      show despawnRun ds (despawnSkills d []) = []
      rw [show despawnSkills d [] = [] from rfl]
      exact ih

theorem despawnRun_once_alive :
    ∀ (dts : List ℚ), (∀ x ∈ dts, 0 ≤ x) →
    ∀ (n : Nat) (a t : Timer), t.mode = TimerMode.Once → t.duration = 3 →
      t.finished = false → 0 ≤ t.elapsed → t.elapsed < 3 →
      (despawnRun dts [(n, ⟨a, t⟩)] ≠ [] ↔ t.elapsed + dts.sum < 3) := by
  intro dts
  induction dts with
  | nil =>
      intro _ n a t hm hd hf h0 h3
      simp [despawnRun]
      linarith
  | cons x ds ih =>
      intro hdts n a t hm hd hf h0 h3
      have hx : 0 ≤ x := hdts x (by simp)
      have hds : ∀ y ∈ ds, 0 ≤ y := fun y hy => hdts y (by simp [hy])
      have hsum : 0 ≤ ds.sum := List.sum_nonneg hds
      rw [show despawnRun (x :: ds) [(n, ⟨a, t⟩)]
            = despawnRun ds (despawnSkills x [(n, ⟨a, t⟩)]) from rfl]
      by_cases hc : (3:ℚ) ≤ t.elapsed + x
      · have hstep : despawnSkills x [(n, ⟨a, t⟩)] = [] := by
          simp [despawnSkills, tickLifetime, Timer.tick, hm, hf, hd, hc]
        rw [hstep, despawnRun_nil]
        simp only [ne_eq, not_true_eq_false, false_iff, not_lt, List.sum_cons]
        linarith
      · have hstep : despawnSkills x [(n, ⟨a, t⟩)]
            = [(n, ⟨a, { t with elapsed := t.elapsed + x, finished := false,
                                timesFinishedThisTick := 0 }⟩)] := by
          simp [despawnSkills, tickLifetime, Timer.tick, hm, hf, hd, hc]
        rw [hstep]
        have hres := ih hds n a
          { t with elapsed := t.elapsed + x, finished := false,
                   timesFinishedThisTick := 0 }
          hm hd rfl (by simp only; linarith) (by simp only; linarith)
        simp only at hres
        rw [hres, List.sum_cons]
        constructor <;> intro <;> linarith

/-- C5: lifetime reaping is exact and the iterate-and-remove pass is safe.
First conjunct: on a world of distinct entity ids, one `despawn_skills` pass
ticks every entry's lifetime exactly once and keeps exactly the entries whose
ticked lifetime is unfinished, in order — no entry is skipped or visited
twice when the deferred commands are applied. Second conjunct: an instance
created fresh with lifetime 3.0 s is still live after any sequence of
nonnegative tick deltas iff their cumulative sum is strictly below 3.0, and
is removed on the first tick where the cumulative sum reaches or exceeds 3.0
(removal is final: with nonnegative deltas the cumulative sum never
decreases). -/
theorem c5_lifetime_reaping :
    (∀ (dt : ℚ) (world : List (Nat × WaterSkill)),
        (world.map Prod.fst).Nodup →
        despawnSkills dt world
          = (world.map (fun p => (p.1, tickLifetime dt p.2))).filter
              (fun p => !p.2.lifetime.finished))
    ∧ (∀ dts : List ℚ, (∀ x ∈ dts, 0 ≤ x) →
        (despawnRun dts [(0, freshWaterSkill)] ≠ [] ↔ dts.sum < 3)) := by
  constructor
  · exact despawnSkills_eq_filter
  · intro dts h
    have hres := despawnRun_once_alive dts h 0
      freshWaterSkill.animation_timer freshWaterSkill.lifetime
      rfl rfl rfl (le_refl 0) (by norm_num [freshWaterSkill, Timer.fromSeconds])
    simpa [freshWaterSkill, Timer.fromSeconds] using hres

/-- Witness for C5: a two-id world for the pass-safety part, and the delta
sequence `[1, 1]` (cumulative 2 < 3, instance still live) for the reaping
part. -/
theorem c5_lifetime_reaping_witness :
    (([(0, freshWaterSkill), (1, freshWaterSkill)].map Prod.fst).Nodup ∧
      despawnSkills 1 [(0, freshWaterSkill), (1, freshWaterSkill)]
        = ([(0, freshWaterSkill), (1, freshWaterSkill)].map
            (fun p => (p.1, tickLifetime 1 p.2))).filter
            (fun p => !p.2.lifetime.finished))
    ∧ ((∀ x ∈ [(1:ℚ), 1], 0 ≤ x) ∧
        (despawnRun [1, 1] [(0, freshWaterSkill)] ≠ []
          ↔ List.sum [(1:ℚ), 1] < 3)) :=
  ⟨⟨by decide, c5_lifetime_reaping.1 1 [(0, freshWaterSkill), (1, freshWaterSkill)]
      (by decide)⟩,
   ⟨by norm_num, c5_lifetime_reaping.2 [1, 1] (by norm_num)⟩⟩

theorem crossings_repeating :
    ∀ (dts : List ℚ), (∀ x ∈ dts, 0 ≤ x) →
    ∀ (t : Timer) (d : ℚ), 0 < d → t.mode = TimerMode.Repeating →
      t.duration = d → 0 ≤ t.elapsed → t.elapsed < d →
      crossings t dts = (⌊(t.elapsed + dts.sum) / d⌋).toNat := by
  intro dts
  induction dts with
  | nil =>
      intro _ t d hd hm hdur h0 hlt
      have hz : ⌊t.elapsed / d⌋ = 0 := by
        rw [Int.floor_eq_zero_iff]
        constructor
        · exact div_nonneg h0 (le_of_lt hd)
        · exact (div_lt_one hd).2 hlt
      simp [crossings, hz]
  | cons x ds ih =>
      intro hdts t d hd hm hdur h0 hlt
      have hx : 0 ≤ x := hdts x (by simp)
      have hds : ∀ y ∈ ds, 0 ≤ y := fun y hy => hdts y (by simp [hy])
      have hS : 0 ≤ ds.sum := List.sum_nonneg hds
      rw [show crossings t (x :: ds)
            = (t.tick x).timesFinishedThisTick + crossings (t.tick x) ds
          from rfl]
      by_cases hc : d ≤ t.elapsed + x
      · have htick : t.tick x
            = { t with
                elapsed := t.elapsed + x
                  - d * (⌊(t.elapsed + x) / d⌋ : ℤ),
                finished := true,
                timesFinishedThisTick := (⌊(t.elapsed + x) / d⌋).toNat } := by
          simp [Timer.tick, hm, hdur, hc]
        set e1 := t.elapsed + x with he1
        set q : ℤ := ⌊e1 / d⌋ with hq
        have hqd : (q : ℚ) ≤ e1 / d := Int.floor_le (e1 / d)
        have hqd' : e1 / d < (q : ℚ) + 1 := Int.lt_floor_add_one (e1 / d)
        have hfr0 : 0 ≤ e1 - d * q := by
          have : (q : ℚ) * d ≤ e1 := by
            rw [← le_div_iff hd]
            exact hqd
          linarith
        have hfrlt : e1 - d * q < d := by
          have : e1 < ((q : ℚ) + 1) * d := by
            rw [← div_lt_iff hd]
            exact hqd'
          linarith
        have IH := ih hds
          { t with elapsed := e1 - d * q, finished := true,
                   timesFinishedThisTick := q.toNat }
          d hd hm hdur hfr0 hfrlt
        rw [htick]
        simp only at IH ⊢
        rw [IH]
        have key : ⌊(e1 - d * q + ds.sum) / d⌋ = ⌊(e1 + ds.sum) / d⌋ - q := by
          have harg : (e1 - d * q + ds.sum) / d = (e1 + ds.sum) / d + (-q : ℤ) := by
            push_cast
            field_simp
            ring
          rw [harg, Int.floor_add_int]
          ring
        have hq1 : 1 ≤ q := by
          rw [hq, Int.le_floor]
          push_cast
          rw [le_div_iff hd]
          linarith
        have hge : q ≤ ⌊(e1 + ds.sum) / d⌋ := by
          rw [hq]
          apply Int.floor_le_floor
          exact (div_le_div_right hd).2 (by linarith)
        rw [key]
        have hassoc : t.elapsed + (x + ds.sum) = e1 + ds.sum := by
          rw [he1]; ring
        rw [List.sum_cons, hassoc]
        omega
      · have htick : t.tick x
            = { t with elapsed := t.elapsed + x, finished := false,
                       timesFinishedThisTick := 0 } := by
          simp [Timer.tick, hm, hdur, hc]
        have IH := ih hds
          { t with elapsed := t.elapsed + x, finished := false,
                   timesFinishedThisTick := 0 }
          d hd hm hdur (by simp only; linarith) (by simp only; linarith)
        rw [htick]
        simp only at IH ⊢
        rw [IH, List.sum_cons]
        rw [show t.elapsed + x + ds.sum = t.elapsed + (x + ds.sum) by ring]
        omega

/-- C7: for a fresh repeating timer of duration `d > 0` and any sequence of
nonnegative tick deltas summing to `T`, the total number of `just_finished`
crossings registered over the sequence (counting every completion inside a
multi-period delta) is exactly `⌊T / d⌋`. -/
theorem c7_repeating_crossings (d : ℚ) (dts : List ℚ) (hd : 0 < d)
    (h : ∀ x ∈ dts, 0 ≤ x) :
    crossings (Timer.fromSeconds d TimerMode.Repeating) dts
      = (⌊dts.sum / d⌋).toNat := by
  have hres := crossings_repeating dts h
    (Timer.fromSeconds d TimerMode.Repeating) d hd rfl rfl (le_refl 0) hd
  simpa [Timer.fromSeconds] using hres

/-- Witness for C7: cadence 0.05 and deltas `[0.15, 0.05]` — the first tick
alone contributes three crossings, for a total of `⌊0.2 / 0.05⌋ = 4`. -/
theorem c7_repeating_crossings_witness :
    0 < (1/20 : ℚ) ∧ (∀ x ∈ [(3:ℚ)/20, 1/20], 0 ≤ x) ∧
    crossings (Timer.fromSeconds (1/20) TimerMode.Repeating) [3/20, 1/20]
      = (⌊List.sum [(3:ℚ)/20, 1/20] / (1/20)⌋).toNat :=
  ⟨by norm_num, by norm_num,
   c7_repeating_crossings (1/20) [3/20, 1/20] (by norm_num) (by norm_num)⟩

theorem sharedStep_init :
    sharedAnimStep initialSharedFrame = sharedCycleState 0 := by
  norm_num [sharedAnimStep, sharedFrameIndex, initialSharedFrame,
    sharedCycleState, SPRITE_COLS, SPRITE_ROWS, TOTAL_FRAMES]

theorem sharedStep_cycle (n : Nat) :
    sharedAnimStep (sharedCycleState n) = sharedCycleState (n + 1) := by
  have h5 : n % 5 = 0 ∨ n % 5 = 1 ∨ n % 5 = 2 ∨ n % 5 = 3 ∨ n % 5 = 4 := by
    omega
  rcases h5 with h | h | h | h | h
  · have hsucc : (n + 1) % 5 = 1 := by omega
    simp only [sharedCycleState, h, hsucc]
    norm_num [sharedAnimStep, sharedFrameIndex, SPRITE_COLS, SPRITE_ROWS,
      TOTAL_FRAMES, show Int.toNat 2 = 2 from rfl,
      show Int.toNat 3 = 3 from rfl, show Int.toNat 4 = 4 from rfl]
  · have hsucc : (n + 1) % 5 = 2 := by omega
    simp only [sharedCycleState, h, hsucc]
    norm_num [sharedAnimStep, sharedFrameIndex, SPRITE_COLS, SPRITE_ROWS,
      TOTAL_FRAMES, show Int.toNat 2 = 2 from rfl,
      show Int.toNat 3 = 3 from rfl, show Int.toNat 4 = 4 from rfl]
  · have hsucc : (n + 1) % 5 = 3 := by omega
    simp only [sharedCycleState, h, hsucc]
    norm_num [sharedAnimStep, sharedFrameIndex, SPRITE_COLS, SPRITE_ROWS,
      TOTAL_FRAMES, show Int.toNat 2 = 2 from rfl,
      show Int.toNat 3 = 3 from rfl, show Int.toNat 4 = 4 from rfl]
  · have hsucc : (n + 1) % 5 = 4 := by omega
    simp only [sharedCycleState, h, hsucc]
    norm_num [sharedAnimStep, sharedFrameIndex, SPRITE_COLS, SPRITE_ROWS,
      TOTAL_FRAMES, show Int.toNat 2 = 2 from rfl,
      show Int.toNat 3 = 3 from rfl, show Int.toNat 4 = 4 from rfl]
  · have hsucc : (n + 1) % 5 = 0 := by omega
    simp only [sharedCycleState, h, hsucc]
    norm_num [sharedAnimStep, sharedFrameIndex, SPRITE_COLS, SPRITE_ROWS,
      TOTAL_FRAMES, show Int.toNat 2 = 2 from rfl,
      show Int.toNat 3 = 3 from rfl, show Int.toNat 4 = 4 from rfl]

theorem sharedIterate (n : Nat) :
    sharedAnimStep^[n + 1] initialSharedFrame = sharedCycleState n := by
  induction n with
  | zero =>
      rw [Function.iterate_one]
      exact sharedStep_init
  | succ m ih =>
      rw [Function.iterate_succ_apply', ih, sharedStep_cycle]

theorem sharedCycle_encoded (n : Nat) :
    sharedEncodedIndex (sharedCycleState n) = n % 5 + 1
    ∧ sharedFrameIndex (sharedCycleState n) ≤ SPRITE_COLS - 1 := by
  have h5 : n % 5 = 0 ∨ n % 5 = 1 ∨ n % 5 = 2 ∨ n % 5 = 3 ∨ n % 5 = 4 := by
    omega
  rcases h5 with h | h | h | h | h <;>
    simp only [sharedCycleState, h] <;>
    constructor <;>
    norm_num [sharedEncodedIndex, sharedFrameIndex, SPRITE_COLS, SPRITE_ROWS,
      show Int.toNat 2 = 2 from rfl, show Int.toNat 3 = 3 from rfl,
      show Int.toNat 4 = 4 from rfl]

theorem sharedFrameIndex_le (n : Nat) :
    sharedFrameIndex (sharedAnimStep^[n] initialSharedFrame)
      ≤ SPRITE_COLS - 1 := by
  cases n with
  | zero =>
      norm_num [sharedFrameIndex, initialSharedFrame, SPRITE_COLS]
  | succ m =>
      rw [sharedIterate]
      exact (sharedCycle_encoded m).2

/-- C10: in the shared-material variant the stepper recovers the frame index
from the stored column fraction only (`frame.x * COLS`, the row is
discarded). From the initial shared frame, the encoded cell index at step
`n ≥ 1` is `(n-1) % 5 + 1`: the sequence is (eventually) periodic over
`{1,2,3,4,5}` only; every encoded index is ≤ 5, so cells 6 through
`TOTAL_FRAMES - 1` are never displayed; and the recovered index never exceeds
`COLS - 1`, so `(recovered + 1) % TOTAL_FRAMES` is never 0 — the explicit
skip branch for `next_frame == 0` is unreachable. -/
theorem c10_shared_material_variant :
    (∀ n : Nat, 1 ≤ n →
        sharedEncodedIndex (sharedAnimStep^[n] initialSharedFrame)
          = (n - 1) % 5 + 1)
    ∧ (∀ n : Nat,
        sharedEncodedIndex (sharedAnimStep^[n] initialSharedFrame)
          ≤ SPRITE_COLS)
    ∧ (∀ n : Nat,
        sharedFrameIndex (sharedAnimStep^[n] initialSharedFrame)
          ≤ SPRITE_COLS - 1)
    ∧ (∀ n : Nat,
        (sharedFrameIndex (sharedAnimStep^[n] initialSharedFrame) + 1)
          % TOTAL_FRAMES ≠ 0) := by
  refine ⟨?_, ?_, sharedFrameIndex_le, ?_⟩
  · intro n hn
    obtain ⟨m, rfl⟩ : ∃ m, n = m + 1 := ⟨n - 1, by omega⟩
    rw [sharedIterate]
    simpa using (sharedCycle_encoded m).1
  · intro n
    cases n with
    | zero =>
        norm_num [sharedEncodedIndex, sharedFrameIndex, initialSharedFrame,
          SPRITE_COLS, SPRITE_ROWS]
    | succ m =>
        rw [sharedIterate, (sharedCycle_encoded m).1]
        have hs : SPRITE_COLS = 5 := rfl
        omega
  · intro n
    have hfi := sharedFrameIndex_le n
    rw [show SPRITE_COLS = 5 from rfl] at hfi
    rw [show TOTAL_FRAMES = 25 from rfl]
    omega

/-- Witness for C10 at `n = 7`: the encoded index is `(7-1) % 5 + 1 = 2`. -/
theorem c10_shared_material_variant_witness :
    1 ≤ 7 ∧
    sharedEncodedIndex (sharedAnimStep^[7] initialSharedFrame)
      = (7 - 1) % 5 + 1 :=
  ⟨by decide, c10_shared_material_variant.1 7 (by decide)⟩

end Bevy2din3d
